import Mathlib

/-!
Verification development for the session- and token-persistence core of the
traefikoidc middleware (source: src/session.go and the token-exchange /
logout source file).

Modelling conventions:
* Go strings on the token path are byte strings; they are modelled as
  `List Nat` with every element `< 256` (`Bytes`).
* The gzip library used by `compressToken` / `decompressToken` is modelled
  as an abstract codec (`GzipCodec`): a total `deflate` and a fallible
  `inflate`.  Theorems take the library's round-trip guarantee as a
  hypothesis where they need it.
* `base64.StdEncoding` is modelled concretely (`b64encodeBytes`,
  `b64decodeBytes`) and its round trip is proved.
* gorilla/sessions cookie sessions are modelled as registry entries keyed
  by cookie name; the per-request session registry reproduces the
  pointer-sharing semantics of repeated `store.Get` calls for one request.
-/

namespace Traefikoidc

/-- Go byte strings (each element is one byte). -/
abbrev Bytes := List Nat

/-- Every element of the list is a byte value. -/
def ValidBytes (bs : Bytes) : Prop := ∀ b ∈ bs, b < 256

/-! ### Session values

`sessions.Session.Values` is a `map[interface{}]interface{}`; the code only
stores string, bool and int64 values under string keys
(`token`, `compressed`, `token_chunk`, `authenticated`, `created_at`, ...). -/

/-- A value stored in a session's `Values` map. -/
inductive SVal where
  | vstr (s : Bytes)
  | vbool (b : Bool)
  | vint (n : Int)
deriving DecidableEq, Repr

/-- The `Values` map of a session, as an association list. -/
abbrev SValues := List (String × SVal)

/-- Map lookup in `Values`. -/
def getValue : SValues → String → Option SVal
  | [], _ => none
  | (k', v) :: rest, k => if k' = k then some v else getValue rest k

/-- Map update `Values[k] = v`. -/
def setValue : SValues → String → SVal → SValues
  | [], k, v => [(k, v)]
  | (k', v') :: rest, k, v =>
      if k' = k then (k, v) :: rest else (k', v') :: setValue rest k v

/-- Go's `Values[k].(string)` with the error ignored: zero value on failure. -/
def getStringD (vs : SValues) (k : String) : Bytes :=
  match getValue vs k with
  | some (.vstr s) => s
  | _ => []

/-- Go's `Values[k].(bool)` with the error ignored: zero value on failure. -/
def getBoolD (vs : SValues) (k : String) : Bool :=
  match getValue vs k with
  | some (.vbool b) => b
  | _ => false

/-- Go's `Values[k].(int64)` with the `ok` flag: `none` when the assertion fails. -/
def getIntOpt (vs : SValues) (k : String) : Option Int :=
  match getValue vs k with
  | some (.vint n) => some n
  | _ => none

theorem getValue_setValue_self (vs : SValues) (k : String) (v : SVal) :
    getValue (setValue vs k v) k = some v := by
  induction vs with
  | nil => simp [setValue, getValue]
  | cons p rest ih =>
      by_cases h : p.1 = k
      · simp [setValue, getValue, h]
      · simp [setValue, getValue, h, ih]

theorem getValue_setValue_ne (vs : SValues) (k k' : String) (v : SVal)
    (h : k' ≠ k) : getValue (setValue vs k v) k' = getValue vs k' := by
  have hk : ¬(k = k') := fun hh => h hh.symm
  induction vs with
  | nil => simp [setValue, getValue, hk]
  | cons p rest ih =>
      by_cases hp : p.1 = k
      · subst hp
        simp [setValue, getValue, hk]
      · by_cases hq : p.1 = k'
        · simp [setValue, getValue, hp, hq, h]
        · simp [setValue, getValue, hp, hq, ih]

/-! ### Standard base64 (`encoding/base64`, `StdEncoding`)

`compressToken` encodes with `base64.StdEncoding.EncodeToString` and
`decompressToken` decodes with `base64.StdEncoding.DecodeString`.  Both are
modelled concretely on byte lists; `61` is the ASCII code of the padding
character `=`. -/

/-- The standard base64 alphabet: the ASCII code of the character for a
6-bit value. -/
def b64ValToChar (n : Nat) : Nat :=
  if n < 26 then 65 + n
  else if n < 52 then 97 + (n - 26)
  else if n < 62 then 48 + (n - 52)
  else if n = 62 then 43
  else 47

/-- Inverse alphabet lookup: `none` for characters outside the alphabet
(the decoder reports `CorruptInputError` there). -/
def b64CharToVal (c : Nat) : Option Nat :=
  if 65 ≤ c ∧ c ≤ 90 then some (c - 65)
  else if 97 ≤ c ∧ c ≤ 122 then some (c - 97 + 26)
  else if 48 ≤ c ∧ c ≤ 57 then some (c - 48 + 52)
  else if c = 43 then some 62
  else if c = 47 then some 63
  else none

theorem b64CharToVal_b64ValToChar : ∀ n, n < 64 → b64CharToVal (b64ValToChar n) = some n := by
  decide

theorem b64ValToChar_ne_pad : ∀ n, n < 64 → b64ValToChar n ≠ 61 := by
  decide

/-- `base64.StdEncoding.EncodeToString` on a byte list (result is the list
of ASCII codes of the encoded string). -/
def b64encodeBytes : Bytes → Bytes
  | [] => []
  | [a] => [b64ValToChar (a / 4), b64ValToChar (a % 4 * 16), 61, 61]
  | [a, b] => [b64ValToChar (a / 4), b64ValToChar (a % 4 * 16 + b / 16),
               b64ValToChar (b % 16 * 4), 61]
  | a :: b :: c :: rest =>
      b64ValToChar (a / 4) :: b64ValToChar (a % 4 * 16 + b / 16) ::
      b64ValToChar (b % 16 * 4 + c / 64) :: b64ValToChar (c % 64) ::
      b64encodeBytes rest

/-- `base64.StdEncoding.DecodeString`: groups of four characters, padding
only in a final complete group, invalid characters and bad lengths are
errors (`none`). -/
def b64decodeBytes : Bytes → Option Bytes
  | [] => some []
  | c1 :: c2 :: c3 :: c4 :: rest =>
      match b64CharToVal c1, b64CharToVal c2 with
      | some v1, some v2 =>
          if c3 = 61 then
            if c4 = 61 ∧ rest = [] then some [v1 * 4 + v2 / 16] else none
          else
            match b64CharToVal c3 with
            | some v3 =>
                if c4 = 61 then
                  if rest = [] then some [v1 * 4 + v2 / 16, v2 % 16 * 16 + v3 / 4]
                  else none
                else
                  match b64CharToVal c4 with
                  | some v4 =>
                      match b64decodeBytes rest with
                      | some bs =>
                          some ((v1 * 4 + v2 / 16) :: (v2 % 16 * 16 + v3 / 4) ::
                                (v3 % 4 * 64 + v4) :: bs)
                      | none => none
                  | none => none
            | none => none
      | _, _ => none
  | _ => none

theorem b64encodeBytes_length :
    ∀ bs : Bytes, (b64encodeBytes bs).length = 4 * ((bs.length + 2) / 3)
  | [] => by simp [b64encodeBytes]
  | [_] => by simp [b64encodeBytes]
  | [_, _] => by simp [b64encodeBytes]
  | _ :: _ :: _ :: rest => by
      simp only [b64encodeBytes, List.length_cons, b64encodeBytes_length rest]
      omega

theorem b64decode_b64encode :
    ∀ bs : Bytes, ValidBytes bs → b64decodeBytes (b64encodeBytes bs) = some bs
  | [], _ => rfl
  | [a], h => by
      have ha : a < 256 := h a (by simp)
      simp only [b64encodeBytes, b64decodeBytes,
        b64CharToVal_b64ValToChar (a / 4) (by omega),
        b64CharToVal_b64ValToChar (a % 4 * 16) (by omega)]
      simp
      omega
  | [a, b], h => by
      have ha : a < 256 := h a (by simp)
      have hb : b < 256 := h b (by simp)
      simp only [b64encodeBytes, b64decodeBytes,
        b64CharToVal_b64ValToChar (a / 4) (by omega),
        b64CharToVal_b64ValToChar (a % 4 * 16 + b / 16) (by omega),
        b64CharToVal_b64ValToChar (b % 16 * 4) (by omega)]
      rw [if_neg (b64ValToChar_ne_pad (b % 16 * 4) (by omega))]
      simp
      constructor
      · omega
      · omega
  | a :: b :: c :: rest, h => by
      have ha : a < 256 := h a (by simp)
      have hb : b < 256 := h b (by simp)
      have hc : c < 256 := h c (by simp)
      have hrest : ValidBytes rest := fun x hx => h x (by simp [hx])
      have ih := b64decode_b64encode rest hrest
      simp only [b64encodeBytes, b64decodeBytes,
        b64CharToVal_b64ValToChar (a / 4) (by omega),
        b64CharToVal_b64ValToChar (a % 4 * 16 + b / 16) (by omega),
        b64CharToVal_b64ValToChar (b % 16 * 4 + c / 64) (by omega),
        b64CharToVal_b64ValToChar (c % 64) (by omega)]
      rw [if_neg (b64ValToChar_ne_pad (b % 16 * 4 + c / 64) (by omega))]
      rw [if_neg (b64ValToChar_ne_pad (c % 64) (by omega))]
      rw [ih]
      simp only [Option.some.injEq, List.cons.injEq]
      refine ⟨by omega, by omega, by omega, by trivial⟩

/-! ### compressToken / decompressToken (session.go)

`compress/gzip` is an external library; it is modelled as an abstract
codec.  `deflate` is total (writing to a `bytes.Buffer` cannot fail, so the
error fallback in `compressToken` is dead in this model); `inflate` models
`gzip.NewReader` + `io.ReadAll` and fails with `none` on a malformed
stream.  Theorems that need the library's round-trip guarantee
(`inflate (deflate t) = some t`, byte-valued and nonempty output) take it
as a hypothesis. -/

/-- Abstract model of the gzip library. -/
structure GzipCodec where
  deflate : Bytes → Bytes
  inflate : Bytes → Option Bytes

/-- `compressToken`: gzip then standard base64 (session.go lines 74-84). -/
def compressToken (codec : GzipCodec) (token : Bytes) : Bytes :=
  b64encodeBytes (codec.deflate token)

/-- `decompressToken` (session.go lines 95-113): base64-decode then
gunzip; on either failure the input is returned unchanged. -/
def decompressToken (codec : GzipCodec) (compressed : Bytes) : Bytes :=
  match b64decodeBytes compressed with
  | none => compressed
  | some data =>
      match codec.inflate data with
      | none => compressed
      | some decompressed => decompressed

theorem decompressToken_compressToken (codec : GzipCodec) (t : Bytes)
    (hrt : codec.inflate (codec.deflate t) = some t)
    (hval : ValidBytes (codec.deflate t)) :
    decompressToken codec (compressToken codec t) = t := by
  simp [compressToken, decompressToken, b64decode_b64encode _ hval, hrt]

/-- A trivial codec satisfying the gzip round-trip hypotheses on nonempty
inputs; used to instantiate theorems at concrete inputs. -/
def idCodec : GzipCodec where
  deflate := fun bs => bs
  inflate := fun bs => some bs

/-! ### generateSecureRandomString (session.go lines 28-34)

`crypto/rand.Read` is modelled by an explicit entropy parameter (the
random bytes read); the function hex-encodes them. -/

/-- ASCII code of the lower-case hex digit for `n < 16`. -/
def hexDigit (n : Nat) : Nat := if n < 10 then 48 + n else 97 + (n - 10)

/-- `hex.EncodeToString` on a byte list. -/
def hexEncode : Bytes → Bytes
  | [] => []
  | b :: rest => hexDigit (b / 16) :: hexDigit (b % 16) :: hexEncode rest

/-- `generateSecureRandomString length` with the bytes read from
`crypto/rand` passed in as `entropy`. -/
def generateSecureRandomString (entropy : Bytes) : Bytes :=
  hexEncode entropy

/-- A lower-case hexadecimal ASCII character. -/
def IsHexByte (c : Nat) : Prop := (48 ≤ c ∧ c ≤ 57) ∨ (97 ≤ c ∧ c ≤ 102)

instance (c : Nat) : Decidable (IsHexByte c) := by
  unfold IsHexByte
  infer_instance

theorem hexEncode_length : ∀ bs : Bytes, (hexEncode bs).length = 2 * bs.length
  | [] => rfl
  | _ :: rest => by
      simp only [hexEncode, List.length_cons, hexEncode_length rest]
      omega

theorem hexEncode_chars : ∀ bs : Bytes, ValidBytes bs →
    ∀ c ∈ hexEncode bs, IsHexByte c
  | [], _ => by simp [hexEncode]
  | b :: rest, h => by
      have hb : b < 256 := h b (by simp)
      have hrest : ValidBytes rest := fun x hx => h x (by simp [hx])
      intro c hc
      simp only [hexEncode, List.mem_cons] at hc
      rcases hc with hc | hc | hc
      · subst hc
        unfold hexDigit IsHexByte
        split <;> omega
      · subst hc
        unfold hexDigit IsHexByte
        split <;> omega
      · exact hexEncode_chars rest hrest c hc

/-! ### splitIntoChunks (session.go lines 652-664)

The Go loop repeatedly slices off `chunkSize` bytes.  It only terminates
for positive `chunkSize` (all callers use `maxCookieSize = 2000`); the
model makes it total with fuel `s.length`, which is sufficient for any
positive chunk size. -/

/-- `maxCookieSize` (session.go line 56). -/
def maxCookieSize : Nat := 2000

def splitIntoChunksAux (chunkSize : Nat) : Nat → Bytes → List Bytes
  | 0, _ => []
  | fuel + 1, s =>
      if s.length = 0 then []
      else if chunkSize < s.length then
        s.take chunkSize :: splitIntoChunksAux chunkSize fuel (s.drop chunkSize)
      else [s]

/-- `splitIntoChunks s chunkSize` divides `s` into maximal pieces of
`chunkSize` bytes. -/
def splitIntoChunks (s : Bytes) (chunkSize : Nat) : List Bytes :=
  splitIntoChunksAux chunkSize s.length s

theorem splitIntoChunksAux_join (chunkSize : Nat) (hpos : 0 < chunkSize) :
    ∀ fuel s, s.length ≤ fuel → (splitIntoChunksAux chunkSize fuel s).flatten = s := by
  intro fuel
  induction fuel with
  | zero =>
      intro s hs
      have : s = [] := List.length_eq_zero.mp (by omega)
      subst this
      simp [splitIntoChunksAux]
  | succ n ih =>
      intro s hs
      by_cases h0 : s.length = 0
      · have : s = [] := List.length_eq_zero.mp h0
        subst this
        simp [splitIntoChunksAux]
      · by_cases hbig : chunkSize < s.length
        · have hlen : (s.drop chunkSize).length ≤ n := by
            simp only [List.length_drop]
            omega
          simp [splitIntoChunksAux, h0, hbig, List.flatten, ih _ hlen]
        · simp [splitIntoChunksAux, h0, hbig]

theorem splitIntoChunks_join (s : Bytes) (chunkSize : Nat) (hpos : 0 < chunkSize) :
    (splitIntoChunks s chunkSize).flatten = s :=
  splitIntoChunksAux_join chunkSize hpos s.length s le_rfl

theorem splitIntoChunksAux_sizes (chunkSize : Nat) :
    ∀ fuel s c, c ∈ splitIntoChunksAux chunkSize fuel s → c.length ≤ chunkSize := by
  intro fuel
  induction fuel with
  | zero => intro s c hc; simp [splitIntoChunksAux] at hc
  | succ n ih =>
      intro s c hc
      by_cases h0 : s.length = 0
      · simp [splitIntoChunksAux, h0] at hc
      · by_cases hbig : chunkSize < s.length
        · simp only [splitIntoChunksAux, if_neg h0, if_pos hbig, List.mem_cons] at hc
          rcases hc with hc | hc
          · subst hc
            simp only [List.length_take]
            omega
          · exact ih _ c hc
        · simp only [splitIntoChunksAux, if_neg h0, if_neg hbig,
            List.mem_singleton] at hc
          subst hc
          omega

theorem splitIntoChunks_sizes (s : Bytes) (c : Bytes)
    (hc : c ∈ splitIntoChunks s maxCookieSize) : c.length ≤ maxCookieSize :=
  splitIntoChunksAux_sizes maxCookieSize s.length s c hc

theorem splitIntoChunksAux_count :
    ∀ fuel s, s.length ≤ fuel → 0 < s.length →
      (splitIntoChunksAux 2000 fuel s).length = (s.length + 1999) / 2000 := by
  intro fuel
  induction fuel with
  | zero => intro s hs h0; omega
  | succ n ih =>
      intro s hs h0
      by_cases hbig : 2000 < s.length
      · have hlen : (s.drop 2000).length ≤ n := by
          simp only [List.length_drop]
          omega
        have hpos : 0 < (s.drop 2000).length := by
          simp only [List.length_drop]
          omega
        simp only [splitIntoChunksAux, if_neg (by omega : ¬s.length = 0), if_pos hbig,
          List.length_cons, ih _ hlen hpos, List.length_drop]
        omega
      · simp only [splitIntoChunksAux, if_neg (by omega : ¬s.length = 0), if_neg hbig,
          List.length_singleton]
        omega

theorem splitIntoChunks_count (s : Bytes) (h0 : 0 < s.length) :
    (splitIntoChunks s maxCookieSize).length = (s.length + 1999) / 2000 :=
  splitIntoChunksAux_count s.length s le_rfl h0

/-! ### Cookie names and the per-request session registry

Cookie names (session.go lines 37-42): main `_oidc_raczylo_m`, access
`_oidc_raczylo_a`, refresh `_oidc_raczylo_r`, and chunk cookies
`<base>_<index>` built with `fmt.Sprintf("%s_%d", base, i)`.  Since the
five shapes are distinct strings and the index rendering is injective,
cookie names are modelled by an inductive type. -/

inductive CookieName where
  | main
  | access
  | refresh
  | accessChunk (i : Nat)
  | refreshChunk (i : Nat)
deriving DecidableEq, Repr

/-- The literal cookie name, for reference. -/
def cookieNameString : CookieName → String
  | .main => "_oidc_raczylo_m"
  | .access => "_oidc_raczylo_a"
  | .refresh => "_oidc_raczylo_r"
  | .accessChunk i => "_oidc_raczylo_a_" ++ toString i
  | .refreshChunk i => "_oidc_raczylo_r_" ++ toString i

/-- One `sessions.Session`: its values, its `Options.MaxAge`, the
`IsNew` flag and its `ID`.  Other `Options` fields (HttpOnly, Secure,
SameSite, Path) play no role in the claims and are omitted. -/
structure GoSession where
  Values : SValues
  MaxAge : Int
  IsNew : Bool
  ID : Bytes
deriving DecidableEq, Repr

/-- The session a `sessions.CookieStore` returns when the request has no
(valid) cookie of that name: empty, `IsNew = true`, default options
(gorilla's default `MaxAge` is 86400 * 30). -/
def freshSession : GoSession :=
  { Values := [], MaxAge := 2592000, IsNew := true, ID := [] }

/-- The request-scoped session registry: gorilla/sessions caches the
`*sessions.Session` for each cookie name, so repeated `store.Get` calls
in one request return the same (mutable) session.  Mutation through any
pointer is modelled as updating the registry entry. -/
abbrev Registry := List (CookieName × GoSession)

def regFind : Registry → CookieName → Option GoSession
  | [], _ => none
  | (n', s) :: rest, n => if n' = n then some s else regFind rest n

def regSet : Registry → CookieName → GoSession → Registry
  | [], n, s => [(n, s)]
  | (n', s') :: rest, n, s =>
      if n' = n then (n, s) :: rest else (n', s') :: regSet rest n s

/-- `store.Get(r, name)`: the registered session if present, otherwise a
fresh one which is registered. -/
def storeGet (reg : Registry) (n : CookieName) : GoSession × Registry :=
  match regFind reg n with
  | some s => (s, reg)
  | none => (freshSession, regSet reg n freshSession)

theorem regFind_regSet_self (reg : Registry) (n : CookieName) (s : GoSession) :
    regFind (regSet reg n s) n = some s := by
  induction reg with
  | nil => simp [regSet, regFind]
  | cons p rest ih =>
      by_cases h : p.1 = n
      · simp [regSet, regFind, h]
      · simp [regSet, regFind, h, ih]

theorem regFind_regSet_ne (reg : Registry) (n n' : CookieName) (s : GoSession)
    (h : n' ≠ n) : regFind (regSet reg n s) n' = regFind reg n' := by
  have hn : ¬(n = n') := fun hh => h hh.symm
  induction reg with
  | nil => simp [regSet, regFind, hn]
  | cons p rest ih =>
      by_cases hp : p.1 = n
      · subst hp
        simp [regSet, regFind, hn]
      · by_cases hq : p.1 = n'
        · simp [regSet, regFind, hp, hq, h]
        · simp [regSet, regFind, hp, hq, ih]

theorem storeGet_self (reg : Registry) (n : CookieName) :
    regFind (storeGet reg n).2 n = some (storeGet reg n).1 := by
  unfold storeGet
  cases h : regFind reg n with
  | some s => simp [h]
  | none => simp [h, regFind_regSet_self]

theorem storeGet_frame (reg : Registry) (n n' : CookieName) (h : n' ≠ n) :
    regFind (storeGet reg n).2 n' = regFind reg n' := by
  unfold storeGet
  cases hf : regFind reg n with
  | some s => simp
  | none => simp [regFind_regSet_ne reg n n' freshSession h]

/-! ### SessionData (session.go lines 254-284)

`SessionData` holds the three primary sessions and the two chunk maps
`map[int]*sessions.Session`.  Every session object reachable from a
`SessionData` is a registry entry (it came from `store.Get`), so the chunk
maps are modelled by the set of indices present; the session an index maps
to is the registry entry of the corresponding chunk cookie name. -/

structure SD where
  main : GoSession
  access : GoSession
  refresh : GoSession
  accessChunkIdx : List Nat
  refreshChunkIdx : List Nat
deriving DecidableEq, Repr

/-- A `SessionData` together with its request's session registry. -/
structure MState where
  sd : SD
  reg : Registry
deriving DecidableEq, Repr

/-- `absoluteSessionTimeout` in seconds (session.go line 60). -/
def absoluteSessionTimeoutSecs : Int := 86400

/-! ### The chunk-walking loops

Go iterates `for i := 0; ; i++` and stops at the first missing index.  The
registry (and any chunk map) is finite, so `length + 1` probes always
reach a missing one; the loops are modelled with that fuel. -/

/-- First index `≥ start` (counting up) not in `idxs`, with fuel. -/
def firstGapAux (idxs : List Nat) : Nat → Nat → Nat
  | i, 0 => i
  | i, fuel + 1 => if i ∈ idxs then firstGapAux idxs (i + 1) fuel else i

/-- The first index not present in the chunk map: where the
reassembly loop of `GetAccessToken` stops. -/
def firstGap (idxs : List Nat) : Nat :=
  firstGapAux idxs 0 (idxs.length + 1)

theorem firstGapAux_range (n : Nat) :
    ∀ fuel i, n ≤ i + fuel → i ≤ n → firstGapAux (List.range n) i fuel = n := by
  intro fuel
  induction fuel with
  | zero => intro i h1 h2; unfold firstGapAux; omega
  | succ m ih =>
      intro i h1 h2
      unfold firstGapAux
      by_cases hi : i < n
      · rw [if_pos (by simpa [List.mem_range] using hi)]
        exact ih (i + 1) (by omega) (by omega)
      · rw [if_neg (by simp [List.mem_range]; omega)]
        omega

theorem firstGap_range (n : Nat) : firstGap (List.range n) = n := by
  unfold firstGap
  exact firstGapAux_range n (List.length (List.range n) + 1) 0 (by simp) (by omega)

/-- The value `session.Values["token_chunk"].(string)` of the chunk
session registered under `cn` (the empty string when the session object
carries no chunk; reachable states always have the entry registered). -/
def chunkTokenValue (reg : Registry) (cn : CookieName) : Bytes :=
  getStringD ((regFind reg cn).getD freshSession).Values "token_chunk"

/-! ### GetAccessToken (session.go lines 449-480) -/

/-- `GetAccessToken`: inline token if present (decompressed when flagged),
otherwise reassembly of `token_chunk` values for indices `0,1,...` up to
the first gap, then decompression when flagged. -/
def GetAccessToken (codec : GzipCodec) (st : MState) : Bytes :=
  let token := getStringD st.sd.access.Values "token"
  if token ≠ [] then
    if getBoolD st.sd.access.Values "compressed" then decompressToken codec token
    else token
  else if st.sd.accessChunkIdx.length = 0 then []
  else
    let chunks := (List.range (firstGap st.sd.accessChunkIdx)).map
      (fun i => chunkTokenValue st.reg (.accessChunk i))
    let token := chunks.flatten
    if getBoolD st.sd.access.Values "compressed" then decompressToken codec token
    else token

/-! ### expireAccessTokenChunks (session.go lines 602-617)

Probes `_oidc_raczylo_a_0, _1, ...` through the store, and for each
existing (non-new) session sets `MaxAge = -1` and empties its values.  The
`w == nil` call sites (inside `SetAccessToken` and `GetSession`-era flows)
do not save, so only the registry mutation is modelled. -/

def expireChunksAux (mk : Nat → CookieName) : Nat → Nat → Registry → Registry
  | 0, _, reg => reg
  | fuel + 1, i, reg =>
      let p := storeGet reg (mk i)
      if p.1.IsNew then p.2
      else expireChunksAux mk fuel (i + 1)
        (regSet p.2 (mk i) { p.1 with MaxAge := -1, Values := [] })

def expireAccessTokenChunks (st : MState) : MState :=
  { st with reg := expireChunksAux CookieName.accessChunk (st.reg.length + 1) 0 st.reg }

/-! ### SetAccessToken (session.go lines 490-517) -/

/-- Writes the chunk list starting at index `i`: each chunk session is
fetched through the store, gets `Values["token_chunk"] = chunk`, and is
recorded in the chunk map. -/
def writeAccessChunks : MState → List Bytes → Nat → MState
  | st, [], _ => st
  | st, chunk :: rest, i =>
      let p := storeGet st.reg (.accessChunk i)
      let s := { p.1 with Values := setValue p.1.Values "token_chunk" (.vstr chunk) }
      let reg := regSet p.2 (.accessChunk i) s
      let sd := { st.sd with accessChunkIdx := st.sd.accessChunkIdx ++ [i] }
      writeAccessChunks { sd := sd, reg := reg } rest (i + 1)

/-- `SetAccessToken`: expire existing chunk cookies, reset the chunk map,
compress; store inline when the compressed form fits in `maxCookieSize`,
otherwise store an empty inline token and write numbered chunk cookies.
(`sd.request` is always non-nil for a session obtained from `GetSession`,
so the expire step always runs.) -/
def SetAccessToken (codec : GzipCodec) (st : MState) (token : Bytes) : MState :=
  let st := expireAccessTokenChunks st
  let st : MState := { st with sd := { st.sd with accessChunkIdx := [] } }
  let compressed := compressToken codec token
  if compressed.length ≤ maxCookieSize then
    { st with sd := { st.sd with access := { st.sd.access with
        Values := setValue (setValue st.sd.access.Values "token" (.vstr compressed))
          "compressed" (.vbool true) } } }
  else
    let st : MState := { st with sd := { st.sd with access := { st.sd.access with
        Values := setValue (setValue st.sd.access.Values "token" (.vstr []))
          "compressed" (.vbool true) } } }
    writeAccessChunks st (splitIntoChunks compressed maxCookieSize) 0

/-! ### Clear (session.go lines 352-384) -/

/-- `clearTokenChunks`: expire and empty each session in a chunk map
(the sessions are registry entries; absent names — unreachable for states
built by this model — are left alone). -/
def clearChunkSessions : Registry → List CookieName → Registry
  | reg, [] => reg
  | reg, n :: rest =>
      let reg' := match regFind reg n with
        | some s => regSet reg n { s with MaxAge := -1, Values := [] }
        | none => reg
      clearChunkSessions reg' rest

/-- The state mutation of `Clear`: `MaxAge = -1` and emptied values on the
three primary sessions and on every chunk session.  (With a response
writer, `Clear` additionally calls `Save`, modelled separately.) -/
def clearState (sd : SD) (reg : Registry) : SD × Registry :=
  let sd' : SD := { sd with
    main := { sd.main with MaxAge := -1, Values := [] },
    access := { sd.access with MaxAge := -1, Values := [] },
    refresh := { sd.refresh with MaxAge := -1, Values := [] } }
  let reg := clearChunkSessions reg (sd.accessChunkIdx.map CookieName.accessChunk)
  let reg := clearChunkSessions reg (sd.refreshChunkIdx.map CookieName.refreshChunk)
  (sd', reg)

/-- `Save` assigns `getSessionOptions` (MaxAge = 86400, session.go lines
174-182) to the three primary sessions and all chunk sessions before
writing the cookie headers; header emission itself is not modelled. -/
def saveApplyOptions (sd : SD) (reg : Registry) : SD × Registry :=
  let sd' : SD := { sd with
    main := { sd.main with MaxAge := 86400 },
    access := { sd.access with MaxAge := 86400 },
    refresh := { sd.refresh with MaxAge := 86400 } }
  let setAges : Registry → List CookieName → Registry := fun r ns =>
    ns.foldl (fun r n =>
      match regFind r n with
      | some s => regSet r n { s with MaxAge := 86400 }
      | none => r) r
  let reg := setAges reg (sd.accessChunkIdx.map CookieName.accessChunk)
  let reg := setAges reg (sd.refreshChunkIdx.map CookieName.refreshChunk)
  (sd', reg)

/-- `Clear(r, nil)`: state mutation only, the instance is detached and
returned to the pool. -/
def clearNoWriter (sd : SD) (reg : Registry) : SD × Registry :=
  clearState sd reg

/-- `Clear(r, w)` with a writer: the mutation followed by `Save` (which
overwrites the options it just set). -/
def clearWithWriter (sd : SD) (reg : Registry) : SD × Registry :=
  let c := clearState sd reg
  saveApplyOptions c.1 c.2

/-! ### GetSession (session.go lines 188-233) -/

/-- `getTokenChunkSessions`: load `<base>_0, <base>_1, ...` until a
missing or new session, collecting the present indices. -/
def probeChunksAux (mk : Nat → CookieName) : Nat → Nat → Registry → List Nat → List Nat × Registry
  | 0, _, reg, acc => (acc, reg)
  | fuel + 1, i, reg, acc =>
      let p := storeGet reg (mk i)
      if p.1.IsNew then (acc, p.2)
      else probeChunksAux mk fuel (i + 1) p.2 (acc ++ [i])

def probeChunks (reg : Registry) (mk : Nat → CookieName) : List Nat × Registry :=
  probeChunksAux mk (reg.length + 1) 0 reg []

/-- The outcome of `GetSession`: the result (or the "session expired"
error), the instance put back in the pool on the error path, and the
final registry. -/
structure GetSessionResult where
  result : Except String SD
  pooledBack : Option SD
  reg : Registry
deriving Repr

/-- A pooled `SessionData` exactly as `sessionPool.Get` hands it out: the
three session pointer fields may be nil.  `sessionPool.New` (session.go
lines 152-160) sets only the manager, the chunk maps and the mutex, so a
fresh instance has `mainSession = accessSession = refreshSession = nil`;
a reused instance still holds the previous request's sessions. -/
structure PooledSD where
  mainP : Option GoSession
  accessP : Option GoSession
  refreshP : Option GoSession
  accessChunkIdxP : List Nat
  refreshChunkIdxP : List Nat
deriving DecidableEq, Repr

/-- The instance `sessionPool.New` builds: all session pointers nil,
chunk maps empty. -/
def freshPoolInstance : PooledSD :=
  { mainP := none, accessP := none, refreshP := none,
    accessChunkIdxP := [], refreshChunkIdxP := [] }

/-- A pooled instance reused from a previous request: all session
pointers populated. -/
def reusedPoolInstance (sd : SD) : PooledSD :=
  { mainP := some sd.main, accessP := some sd.access, refreshP := some sd.refresh,
    accessChunkIdxP := sd.accessChunkIdx, refreshChunkIdxP := sd.refreshChunkIdx }

/-- Outcome of running Go code that may dereference a nil pointer:
either the value, or a runtime nil-pointer-dereference panic. -/
inductive GoOutcome (α : Type) where
  | ok (a : α)
  | nilPanic
deriving Repr

/-- `Clear` on a pooled instance (session.go lines 352-384): lines
354-356 execute `sd.mainSession.Options.MaxAge = -1` and the same on
`accessSession` and `refreshSession`, dereferencing all three pointers;
a nil field is a nil-pointer dereference panic.  When all three are
present the mutation is `clearState` (no writer on this path). -/
def clearPooled (sd : PooledSD) (reg : Registry) : GoOutcome (SD × Registry) :=
  match sd.mainP, sd.accessP, sd.refreshP with
  | some m, some a, some r =>
      .ok (clearNoWriter
        { main := m, access := a, refresh := r,
          accessChunkIdx := sd.accessChunkIdxP,
          refreshChunkIdx := sd.refreshChunkIdxP } reg)
  | _, _, _ => .nilPanic

/-- Continuation of `GetSession` after the timeout check: load access and
refresh sessions (overwriting whatever the pooled instance held), drain
and re-populate the two chunk maps.  `mainS` is the main session loaded
at the start of `GetSession`. -/
def getSessionRest (mainS : GoSession) (reg : Registry) : GetSessionResult :=
  let pa := storeGet reg .access
  let pr := storeGet pa.2 .refresh
  let a := probeChunks pr.2 CookieName.accessChunk
  let r := probeChunks a.2 CookieName.refreshChunk
  { result := .ok { main := mainS, access := pa.1, refresh := pr.1,
                    accessChunkIdx := a.1, refreshChunkIdx := r.1 },
    pooledBack := none, reg := r.2 }

/-- `GetSession` on a pooled instance: the request's main session is
loaded into the instance; if its `created_at` is present and the elapsed
time exceeds the absolute timeout, `Clear(r, nil)` runs — which panics on
a fresh pool instance (nil access/refresh sessions) and otherwise clears
the state — and "session expired" is reported; otherwise loading
continues.  `now` is the current Unix time in seconds. -/
def GetSession (pooled : PooledSD) (reg : Registry) (now : Int) :
    GoOutcome GetSessionResult :=
  let p := storeGet reg .main
  let sd : PooledSD := { pooled with mainP := some p.1 }
  match getIntOpt p.1.Values "created_at" with
  | some createdAt =>
      if now - createdAt > absoluteSessionTimeoutSecs then
        match clearPooled sd p.2 with
        | .ok c => .ok { result := .error "session expired",
                         pooledBack := some c.1, reg := c.2 }
        | .nilPanic => .nilPanic
      else .ok (getSessionRest p.1 p.2)
  | none => .ok (getSessionRest p.1 p.2)

/-! ### GetAuthenticated / SetAuthenticated (session.go lines 407-441) -/

/-- `GetAuthenticated`: the `authenticated` flag, and the absolute
timeout measured from `created_at`. -/
def GetAuthenticated (sd : SD) (now : Int) : Bool :=
  let auth := getBoolD sd.main.Values "authenticated"
  if !auth then false
  else
    match getIntOpt sd.main.Values "created_at" with
    | none => false
    | some createdAt => decide (now - createdAt ≤ absoluteSessionTimeoutSecs)

/-- `SetAuthenticated value`: on `true`, a fresh session ID
(`generateSecureRandomString(32)`, with the random bytes passed as
`entropy`) and `created_at = now`; in both cases the `authenticated`
flag is stored. -/
def SetAuthenticated (sd : SD) (value : Bool) (entropy : Bytes) (now : Int) : SD :=
  let sd : SD :=
    if value then
      { sd with main := { sd.main with
          ID := generateSecureRandomString entropy,
          Values := setValue sd.main.Values "created_at" (.vint now) } }
    else sd
  { sd with main := { sd.main with
      Values := setValue sd.main.Values "authenticated" (.vbool value) } }

/-! ### exchangeTokens / exchangeCodeForToken (token exchange source,
lines 84-141 and 224-238)

Only the request-body construction and the response handling are
state-free; the HTTP transport is external.  `url.Values` is a map from
key to values; the code only ever uses single-valued `Set`, modelled by
an association list with replace-or-append update. -/

abbrev Form := List (String × String)

def formSet : Form → String → String → Form
  | [], k, v => [(k, v)]
  | (k', v') :: rest, k, v =>
      if k' = k then (k, v) :: rest else (k', v') :: formSet rest k v

def formGet : Form → String → Option String
  | [], _ => none
  | (k', v) :: rest, k => if k' = k then some v else formGet rest k

/-- Whether the encoded request body contains the key at all. -/
def formHasKey (f : Form) (k : String) : Bool :=
  (formGet f k).isSome

/-- The form body built by `exchangeTokens`: always `grant_type`,
`client_id`, `client_secret`; `authorization_code` adds `code` and
`redirect_uri` and, when a verifier was supplied, `code_verifier`;
`refresh_token` adds only `refresh_token`. -/
def exchangeTokensForm (clientID clientSecret grantType codeOrToken redirectURL codeVerifier : String) : Form :=
  let data : Form := [("grant_type", grantType), ("client_id", clientID),
                      ("client_secret", clientSecret)]
  if grantType = "authorization_code" then
    let data := formSet data "code" codeOrToken
    let data := formSet data "redirect_uri" redirectURL
    if codeVerifier ≠ "" then formSet data "code_verifier" codeVerifier else data
  else if grantType = "refresh_token" then
    formSet data "refresh_token" codeOrToken
  else data

/-- `exchangeCodeForToken`: the verifier is forwarded only when PKCE is
enabled for the installation and a verifier was supplied. -/
def exchangeCodeForTokenForm (enablePKCE : Bool) (clientID clientSecret code redirectURL codeVerifier : String) : Form :=
  let effectiveCodeVerifier := if enablePKCE ∧ codeVerifier ≠ "" then codeVerifier else ""
  exchangeTokensForm clientID clientSecret "authorization_code" code redirectURL effectiveCodeVerifier

/-- `TokenResponse` (token exchange source, lines 59-74). -/
structure TokenResponse where
  idToken : Bytes
  accessToken : Bytes
  refreshToken : Bytes
  expiresIn : Int
  tokenType : Bytes
deriving DecidableEq, Repr

/-- Result of the response handling in `exchangeTokens`:
`statusError code body` models
`fmt.Errorf("token endpoint returned status %d: %s", resp.StatusCode, string(bodyBytes))`
with `bodyBytes` the bytes read from the body, and `decodeError` models
the JSON decode failure wrap. -/
inductive ExchangeResult where
  | ok (tr : TokenResponse)
  | statusError (code : Nat) (body : Bytes)
  | decodeError
deriving DecidableEq, Repr

/-- Response handling of `exchangeTokens` (lines 130-141): on a non-200
status the error carries the status code and the bytes `io.ReadAll`
returns for the body (the whole body — there is no limiting reader);
on a 200 status the JSON decoding (`decode`, modelling
`json.NewDecoder(...).Decode(&tokenResponse)`) is attempted. -/
def finishExchange (decode : Bytes → Option TokenResponse)
    (status : Nat) (body : Bytes) : ExchangeResult :=
  if status ≠ 200 then .statusError status body
  else
    match decode body with
    | none => .decodeError
    | some tr => .ok tr

/-! ### handleLogout / BuildLogoutURL (logout source, lines 253-313)

`BuildLogoutURL` itself is `net/url` parsing/encoding; it is abstracted
as a parameter so the theorem can speak about which value flows into its
`idToken` argument. -/

inductive LogoutOutcome where
  | logoutError
  | redirect (url : String)
deriving DecidableEq, Repr

/-- Post-logout destination: site root when unconfigured; absolutized
against `scheme://host` when not already absolute. -/
def computePostLogoutURI (postLogoutRedirectURI scheme host : String) : String :=
  let baseURL := scheme ++ "://" ++ host
  if postLogoutRedirectURI = "" then baseURL ++ "/"
  else if ¬ postLogoutRedirectURI.startsWith "http" then baseURL ++ postLogoutRedirectURI
  else postLogoutRedirectURI

/-- `handleLogout` on a successfully loaded session `st`: capture the
access token, clear the session (with writer), compute the post-logout
destination, and redirect to the provider end-session URL (built by
`buildLogoutURL`, receiving the captured access token as its `idToken`
argument) when an end-session URL is configured and an access token
existed, else redirect to the post-logout destination directly. -/
def handleLogout (codec : GzipCodec)
    (buildLogoutURL : String → Bytes → String → Option String)
    (endSessionURL postLogoutRedirectURI scheme host : String)
    (st : MState) : LogoutOutcome × (SD × Registry) :=
  let accessToken := GetAccessToken codec st
  let cleared := clearWithWriter st.sd st.reg
  let post := computePostLogoutURI postLogoutRedirectURI scheme host
  if endSessionURL ≠ "" ∧ accessToken ≠ [] then
    match buildLogoutURL endSessionURL accessToken post with
    | some u => (.redirect u, cleared)
    | none => (.logoutError, cleared)
  else (.redirect post, cleared)

/-! ### Helper lemmas about the accessors -/

theorem getStringD_setValue_vstr (vs : SValues) (k : String) (s : Bytes) :
    getStringD (setValue vs k (.vstr s)) k = s := by
  simp [getStringD, getValue_setValue_self]

theorem getBoolD_setValue_vbool (vs : SValues) (k : String) (b : Bool) :
    getBoolD (setValue vs k (.vbool b)) k = b := by
  simp [getBoolD, getValue_setValue_self]

theorem getStringD_setValue_ne (vs : SValues) (k k' : String) (v : SVal)
    (h : k' ≠ k) : getStringD (setValue vs k v) k' = getStringD vs k' := by
  simp [getStringD, getValue_setValue_ne vs k k' v h]

theorem getBoolD_setValue_ne (vs : SValues) (k k' : String) (v : SVal)
    (h : k' ≠ k) : getBoolD (setValue vs k v) k' = getBoolD vs k' := by
  simp [getBoolD, getValue_setValue_ne vs k k' v h]

/-! ### Behaviour of writeAccessChunks -/

theorem writeAccessChunks_spec :
    ∀ (cs : List Bytes) (st : MState) (i : Nat),
      (writeAccessChunks st cs i).sd.main = st.sd.main ∧
      (writeAccessChunks st cs i).sd.access = st.sd.access ∧
      (writeAccessChunks st cs i).sd.refresh = st.sd.refresh ∧
      (writeAccessChunks st cs i).sd.refreshChunkIdx = st.sd.refreshChunkIdx ∧
      (writeAccessChunks st cs i).sd.accessChunkIdx
        = st.sd.accessChunkIdx ++ List.range' i cs.length ∧
      ((List.range' i cs.length).map
        (fun j => chunkTokenValue (writeAccessChunks st cs i).reg (.accessChunk j)) = cs) ∧
      (∀ j ∈ List.range' i cs.length,
        (regFind (writeAccessChunks st cs i).reg (.accessChunk j)).isSome = true) ∧
      (∀ cn, (∀ j ∈ List.range' i cs.length, cn ≠ .accessChunk j) →
        regFind (writeAccessChunks st cs i).reg cn = regFind st.reg cn) := by
  intro cs
  induction cs with
  | nil =>
      intro st i
      simp [writeAccessChunks, List.range']
  | cons c rest ih =>
      intro st i
      -- the stepped state
      set p := storeGet st.reg (.accessChunk i) with hp
      set s : GoSession :=
        { p.1 with Values := setValue p.1.Values "token_chunk" (.vstr c) } with hs
      set st1 : MState :=
        { sd := { st.sd with accessChunkIdx := st.sd.accessChunkIdx ++ [i] },
          reg := regSet p.2 (.accessChunk i) s } with hst1
      have hstep : writeAccessChunks st (c :: rest) i = writeAccessChunks st1 rest (i + 1) := by
        simp only [writeAccessChunks]
      obtain ⟨ihm, iha, ihr, ihri, ihidx, ihmap, ihsome, ihframe⟩ := ih st1 (i + 1)
      have hself : regFind st1.reg (.accessChunk i) = some s := by
        simp only [hst1]
        exact regFind_regSet_self _ _ _
      have hframe1 : ∀ cn, cn ≠ .accessChunk i → regFind st1.reg cn = regFind st.reg cn := by
        intro cn hcn
        simp only [hst1]
        rw [regFind_regSet_ne _ _ _ _ hcn, hp, storeGet_frame _ _ _ hcn]
      have hne : ∀ j ∈ List.range' (i + 1) rest.length,
          (CookieName.accessChunk i) ≠ .accessChunk j := by
        intro j hj
        simp only [List.mem_range'_1] at hj
        intro hcontra
        have : i = j := by injection hcontra
        omega
      have hfinal_i : regFind (writeAccessChunks st1 rest (i + 1)).reg (.accessChunk i) = some s := by
        rw [ihframe _ hne]
        exact hself
      have hrange : List.range' i (rest.length + 1) = i :: List.range' (i + 1) rest.length :=
        List.range'_succ i rest.length 1
      refine ⟨?_, ?_, ?_, ?_, ?_, ?_, ?_, ?_⟩
      · rw [hstep, ihm]
      · rw [hstep, iha]
      · rw [hstep, ihr]
      · rw [hstep, ihri]
      · rw [hstep, ihidx]
        simp only [hst1, List.length_cons, hrange]
        simp
      · rw [hstep]
        simp only [List.length_cons, hrange, List.map_cons, ihmap]
        have : chunkTokenValue (writeAccessChunks st1 rest (i + 1)).reg (.accessChunk i) = c := by
          unfold chunkTokenValue
          rw [hfinal_i]
          simp only [Option.getD_some, hs]
          exact getStringD_setValue_vstr _ _ _
        rw [this]
      · intro j hj
        rw [hstep]
        simp only [List.length_cons, hrange, List.mem_cons] at hj
        rcases hj with hj | hj
        · subst hj
          rw [hfinal_i]
          rfl
        · exact ihsome j hj
      · intro cn hcn
        rw [hstep]
        simp only [List.length_cons, hrange, List.mem_cons] at hcn
        have hcni : cn ≠ .accessChunk i := hcn i (Or.inl rfl)
        have hcnrest : ∀ j ∈ List.range' (i + 1) rest.length, cn ≠ .accessChunk j :=
          fun j hj => hcn j (Or.inr hj)
        rw [ihframe cn hcnrest, hframe1 cn hcni]

/-! ### GetAccessToken after SetAccessToken -/

theorem getAccessToken_setAccessToken (codec : GzipCodec) (st : MState) (T : Bytes) :
    GetAccessToken codec (SetAccessToken codec st T) =
      if compressToken codec T = [] then []
      else decompressToken codec (compressToken codec T) := by
  have hkey : ("token" : String) ≠ "compressed" := by decide
  by_cases hle : (compressToken codec T).length ≤ maxCookieSize
  · -- inline storage
    have hset : SetAccessToken codec st T =
        { expireAccessTokenChunks st with sd :=
          { (expireAccessTokenChunks st).sd with
            accessChunkIdx := [],
            access := { (expireAccessTokenChunks st).sd.access with
              Values := setValue
                (setValue (expireAccessTokenChunks st).sd.access.Values
                  "token" (.vstr (compressToken codec T)))
                "compressed" (.vbool true) } } } := by
      simp only [SetAccessToken, hle, if_pos]
    rw [hset]
    simp only [GetAccessToken]
    rw [getStringD_setValue_ne _ _ _ _ hkey, getStringD_setValue_vstr,
      getBoolD_setValue_vbool]
    by_cases hc : compressToken codec T = []
    · simp [hc]
    · simp [hc]
  · -- chunked storage
    set c := compressToken codec T with hc
    have hgt : maxCookieSize < c.length := by omega
    have hcne : ¬c = [] := by
      intro h
      rw [h] at hgt
      simp [maxCookieSize] at hgt
    set st3 : MState :=
      { expireAccessTokenChunks st with sd :=
        { (expireAccessTokenChunks st).sd with
          accessChunkIdx := [],
          access := { (expireAccessTokenChunks st).sd.access with
            Values := setValue
              (setValue (expireAccessTokenChunks st).sd.access.Values
                "token" (.vstr []))
              "compressed" (.vbool true) } } } with hst3
    have hset : SetAccessToken codec st T =
        writeAccessChunks st3 (splitIntoChunks c maxCookieSize) 0 := by
      simp only [SetAccessToken, hle, if_neg, ite_false, hst3, hc]
    rw [hset]
    set cs := splitIntoChunks c maxCookieSize with hcs
    obtain ⟨hm, ha, hr, hri, hidx, hmap, hsome, hframe⟩ :=
      writeAccessChunks_spec cs st3 0
    have hn : 0 < cs.length := by
      rw [hcs, splitIntoChunks_count c (by omega)]
      change 2000 < c.length at hgt
      omega
    simp only [GetAccessToken, ha, hidx]
    have htok : getStringD st3.sd.access.Values "token" = [] := by
      simp only [hst3]
      rw [getStringD_setValue_ne _ _ _ _ hkey, getStringD_setValue_vstr]
    have hflag : getBoolD st3.sd.access.Values "compressed" = true := by
      simp only [hst3]
      rw [getBoolD_setValue_vbool]
    rw [htok]
    have hrange : (List.nil ++ List.range' 0 cs.length : List Nat) = List.range cs.length := by
      rw [List.nil_append, List.range_eq_range']
    have hidx' : st3.sd.accessChunkIdx ++ List.range' 0 cs.length = List.range cs.length := by
      simp only [hst3]
      exact hrange
    rw [hidx']
    rw [if_neg (by simp)]
    have h2 : ¬((List.range cs.length).length = 0) := by
      simp only [List.length_range]
      omega
    rw [if_neg h2]
    rw [firstGap_range]
    have hmap' : (List.range cs.length).map
        (fun j => chunkTokenValue (writeAccessChunks st3 cs 0).reg (.accessChunk j)) = cs := by
      rw [List.range_eq_range']
      exact hmap
    rw [hmap', hflag]
    rw [splitIntoChunks_join c maxCookieSize (by simp [maxCookieSize])]
    rw [if_neg hcne]
    simp

/-! ### Behaviour of expireAccessTokenChunks -/

theorem regFind_mem_keys (reg : Registry) (n : CookieName) (s : GoSession)
    (h : regFind reg n = some s) : n ∈ reg.map Prod.fst := by
  induction reg with
  | nil => simp [regFind] at h
  | cons p rest ih =>
      by_cases hp : p.1 = n
      · simp [hp]
      · simp only [regFind, if_neg hp] at h
        simp [ih h]

theorem accessChunk_injective : Function.Injective CookieName.accessChunk := by
  intro a b h
  injection h

/-- If chunk cookies are present at all indices below `k` then
`k ≤ reg.length` (their names are distinct registry keys). -/
theorem chunkRun_le_regLength (reg : Registry) (k : Nat)
    (h : ∀ j, j < k → ∃ s, regFind reg (.accessChunk j) = some s) :
    k ≤ reg.length := by
  have hsub : (List.range k).map CookieName.accessChunk ⊆ reg.map Prod.fst := by
    intro x hx
    simp only [List.mem_map, List.mem_range] at hx
    obtain ⟨j, hj, rfl⟩ := hx
    obtain ⟨s, hs⟩ := h j hj
    exact regFind_mem_keys reg _ s hs
  have hnd : ((List.range k).map CookieName.accessChunk).Nodup :=
    (List.nodup_range k).map accessChunk_injective
  have := (List.subperm_of_subset hnd hsub).length_le
  simpa using this

theorem expireChunksAux_spec (mk : Nat → CookieName)
    (hinj : ∀ a b, mk a = mk b → a = b) (k : Nat) :
    ∀ fuel i reg,
      (∀ j, i ≤ j → j < k → ∃ s, regFind reg (mk j) = some s ∧ s.IsNew = false) →
      regFind reg (mk k) = none →
      k ≤ i + fuel → i ≤ k →
      (∀ j, i ≤ j → j < k → ∃ s, regFind reg (mk j) = some s ∧
        regFind (expireChunksAux mk fuel i reg) (mk j)
          = some { s with MaxAge := -1, Values := [] }) ∧
      (∀ cn, (∀ j, i ≤ j → j ≤ k → cn ≠ mk j) →
        regFind (expireChunksAux mk fuel i reg) cn = regFind reg cn) := by
  intro fuel
  induction fuel with
  | zero =>
      intro i reg _ _ hfuel hik
      have : i = k := by omega
      subst this
      constructor
      · intro j h1 h2
        omega
      · intro cn _
        rfl
  | succ m ih =>
      intro i reg hpres hgap hfuel hik
      by_cases hieq : i = k
      · subst hieq
        have hstep : expireChunksAux mk (m + 1) i reg = regSet reg (mk i) freshSession := by
          simp only [expireChunksAux, storeGet, hgap, freshSession]
          simp
        rw [hstep]
        constructor
        · intro j h1 h2
          omega
        · intro cn hcn
          exact regFind_regSet_ne reg (mk i) cn freshSession (hcn i le_rfl le_rfl)
      · have hik' : i < k := by omega
        obtain ⟨si, hsi, hnew⟩ := hpres i le_rfl hik'
        have hstep : expireChunksAux mk (m + 1) i reg =
            expireChunksAux mk m (i + 1)
              (regSet reg (mk i) { si with MaxAge := -1, Values := [] }) := by
          simp only [expireChunksAux, storeGet, hsi, hnew]
          simp [hnew]
        set reg' := regSet reg (mk i) { si with MaxAge := -1, Values := [] } with hreg'
        have hne_i : ∀ j, j ≠ i → mk j ≠ mk i := by
          intro j hj hcontra
          exact hj (hinj j i hcontra)
        have hfind' : ∀ j, j ≠ i → regFind reg' (mk j) = regFind reg (mk j) := by
          intro j hj
          exact regFind_regSet_ne reg (mk i) (mk j) _ (hne_i j hj)
        obtain ⟨ih1, ih2⟩ := ih (i + 1) reg'
          (by
            intro j h1 h2
            rw [hfind' j (by omega)]
            exact hpres j (by omega) h2)
          (by rw [hfind' k (by omega)]; exact hgap)
          (by omega) (by omega)
        rw [hstep]
        constructor
        · intro j h1 h2
          by_cases hj : j = i
          · subst hj
            refine ⟨si, hsi, ?_⟩
            rw [ih2 (mk j) (by
              intro j' h1' h2' hcontra
              have := hinj j j' hcontra
              omega)]
            rw [hreg']
            exact regFind_regSet_self _ _ _
          · obtain ⟨s, hs1, hs2⟩ := ih1 j (by omega) h2
            rw [hfind' j hj] at hs1
            exact ⟨s, hs1, hs2⟩
        · intro cn hcn
          rw [ih2 cn (fun j h1 h2 => hcn j (by omega) h2)]
          rw [hreg']
          exact regFind_regSet_ne reg (mk i) cn _ (hcn i le_rfl (by omega))

/-- The precondition of a session that carries a previously stored chunked
token: chunk cookies at all indices below `k` (loaded from the request,
hence not new), and none above. -/
def ChunkRun (reg : Registry) (k : Nat) : Prop :=
  (∀ j, j < k → ∃ s, regFind reg (.accessChunk j) = some s ∧ s.IsNew = false) ∧
  (∀ j, k ≤ j → regFind reg (.accessChunk j) = none)

theorem expireAccessTokenChunks_expires (st : MState) (k : Nat)
    (h : ChunkRun st.reg k) :
    ∀ j, j < k → ∃ s, regFind st.reg (.accessChunk j) = some s ∧
      regFind (expireAccessTokenChunks st).reg (.accessChunk j)
        = some { s with MaxAge := -1, Values := [] } := by
  obtain ⟨hpres, hgap⟩ := h
  have hk : k ≤ st.reg.length :=
    chunkRun_le_regLength st.reg k (fun j hj => (hpres j hj).imp (fun s hs => hs.1))
  have hspec := expireChunksAux_spec CookieName.accessChunk
    (fun a b h => accessChunk_injective h) k (st.reg.length + 1) 0 st.reg
    (fun j _ h2 => hpres j h2) (hgap k le_rfl) (by omega) (by omega)
  intro j hj
  exact hspec.1 j (by omega) hj

theorem b64encodeBytes_ne_nil (bs : Bytes) (h : bs ≠ []) : b64encodeBytes bs ≠ [] := by
  intro hc
  have hl := b64encodeBytes_length bs
  rw [hc] at hl
  simp only [List.length_nil] at hl
  have : 0 < bs.length := List.length_pos.mpr h
  omega

/-! ### Concrete inputs used to instantiate the theorems -/

/-- A 1501-byte token; its base64 form under `idCodec` has 2004 bytes,
which exceeds `maxCookieSize`. -/
def sampleLargeToken : Bytes := List.replicate 1501 65

/-- A short token. -/
def sampleSmallToken : Bytes := [65, 66, 67]

/-- An empty session state. -/
def emptyState : MState :=
  { sd := { main := freshSession, access := freshSession, refresh := freshSession,
            accessChunkIdx := [], refreshChunkIdx := [] },
    reg := [] }

/-- A request-loaded chunk session (one previously stored chunk cookie). -/
def loadedChunkSession : GoSession :=
  { Values := [("token_chunk", .vstr [90, 91])], MaxAge := 2592000, IsNew := false, ID := [] }

/-- A session state whose request carries one previously stored access
token chunk cookie. -/
def chunkedState : MState :=
  { sd := { main := freshSession, access := freshSession, refresh := freshSession,
            accessChunkIdx := [0], refreshChunkIdx := [] },
    reg := [(.accessChunk 0, loadedChunkSession)] }

/-! ### The claims -/

/-- C1: for every token T whose gzip-compressed, standard-base64-encoded
form is longer than 2000 bytes, `SetAccessToken T` stores the encoded form
split into exactly ⌈compressedLen/2000⌉ chunks under contiguous indices
0,...,n-1 (each chunk at most 2000 bytes, the inline token field left
empty with compressed=true), and a subsequent `GetAccessToken` reassembles
the chunks in index order and decompresses to return exactly T.  The gzip
library round trip (and byte-valued output) is assumed. -/
theorem setAccessToken_chunked_roundtrip (codec : GzipCodec) (T : Bytes) (st : MState)
    (hrt : codec.inflate (codec.deflate T) = some T)
    (hval : ValidBytes (codec.deflate T))
    (hlen : 2000 < (compressToken codec T).length) :
    (SetAccessToken codec st T).sd.accessChunkIdx
      = List.range (((compressToken codec T).length + 1999) / 2000) ∧
    ((List.range (((compressToken codec T).length + 1999) / 2000)).map
      (fun i => chunkTokenValue (SetAccessToken codec st T).reg (.accessChunk i))
      = splitIntoChunks (compressToken codec T) maxCookieSize) ∧
    (∀ c ∈ splitIntoChunks (compressToken codec T) maxCookieSize, c.length ≤ 2000) ∧
    (∀ i, i < ((compressToken codec T).length + 1999) / 2000 →
      (regFind (SetAccessToken codec st T).reg (.accessChunk i)).isSome = true) ∧
    getStringD (SetAccessToken codec st T).sd.access.Values "token" = [] ∧
    getBoolD (SetAccessToken codec st T).sd.access.Values "compressed" = true ∧
    GetAccessToken codec (SetAccessToken codec st T) = T := by
  have hkey : ("token" : String) ≠ "compressed" := by decide
  have hle : ¬(compressToken codec T).length ≤ maxCookieSize := by
    simp only [maxCookieSize]
    omega
  set c := compressToken codec T with hc
  set st3 : MState :=
    { expireAccessTokenChunks st with sd :=
      { (expireAccessTokenChunks st).sd with
        accessChunkIdx := [],
        access := { (expireAccessTokenChunks st).sd.access with
          Values := setValue
            (setValue (expireAccessTokenChunks st).sd.access.Values
              "token" (.vstr []))
            "compressed" (.vbool true) } } } with hst3
  have hset : SetAccessToken codec st T =
      writeAccessChunks st3 (splitIntoChunks c maxCookieSize) 0 := by
    simp only [SetAccessToken, hle, if_neg, ite_false, hst3, hc]
  set cs := splitIntoChunks c maxCookieSize with hcs
  obtain ⟨hm, ha, hr, hri, hidx, hmap, hsome, hframe⟩ :=
    writeAccessChunks_spec cs st3 0
  have hcount : cs.length = (c.length + 1999) / 2000 := by
    rw [hcs]
    exact splitIntoChunks_count c (by omega)
  have hidx' : (writeAccessChunks st3 cs 0).sd.accessChunkIdx = List.range cs.length := by
    rw [hidx]
    simp only [hst3]
    rw [List.nil_append, List.range_eq_range']
  refine ⟨?_, ?_, ?_, ?_, ?_, ?_, ?_⟩
  · rw [hset, hidx', hcount]
  · rw [hset, ← hcount, List.range_eq_range']
    exact hmap
  · intro ch hch
    exact splitIntoChunks_sizes c ch hch
  · intro i hi
    rw [hset]
    refine hsome i ?_
    simp only [List.mem_range'_1]
    omega
  · rw [hset, ha]
    simp only [hst3]
    rw [getStringD_setValue_ne _ _ _ _ hkey, getStringD_setValue_vstr]
  · rw [hset, ha]
    simp only [hst3]
    rw [getBoolD_setValue_vbool]
  · rw [getAccessToken_setAccessToken]
    rw [if_neg (by
      intro hnil
      rw [← hc] at hnil
      rw [hnil] at hlen
      simp at hlen)]
    exact decompressToken_compressToken codec T hrt hval

/-- Witness for C1 at a concrete input: a 1501-byte token (2004 encoded
bytes) round-trips through chunked storage. -/
theorem setAccessToken_chunked_roundtrip_witness :
    GetAccessToken idCodec (SetAccessToken idCodec emptyState sampleLargeToken)
      = sampleLargeToken :=
  (setAccessToken_chunked_roundtrip idCodec sampleLargeToken emptyState
    rfl
    (by
      intro b hb
      simp only [sampleLargeToken, idCodec, List.mem_replicate] at hb
      omega)
    (by
      have h := b64encodeBytes_length (idCodec.deflate sampleLargeToken)
      have hlen : (idCodec.deflate sampleLargeToken).length = 1501 := by
        show (List.replicate 1501 65).length = 1501
        exact List.length_replicate 1501 65
      rw [hlen] at h
      simp only [compressToken]
      omega)).2.2.2.2.2.2

/-- C2: for every token T whose gzip-compressed, standard-base64-encoded
form is at most 2000 bytes, `SetAccessToken T` followed by
`GetAccessToken` returns exactly T, and the set operation creates zero
chunk partitions (the chunk map is empty and the registry gains no chunk
sessions beyond the expiry pass).  The gzip round trip and the fact that a
gzip stream is nonempty are assumed. -/
theorem setAccessToken_inline_roundtrip (codec : GzipCodec) (T : Bytes) (st : MState)
    (hrt : codec.inflate (codec.deflate T) = some T)
    (hval : ValidBytes (codec.deflate T))
    (hne : codec.deflate T ≠ [])
    (hlen : (compressToken codec T).length ≤ 2000) :
    (SetAccessToken codec st T).sd.accessChunkIdx = [] ∧
    (SetAccessToken codec st T).reg = (expireAccessTokenChunks st).reg ∧
    GetAccessToken codec (SetAccessToken codec st T) = T := by
  have hle : (compressToken codec T).length ≤ maxCookieSize := by
    simp only [maxCookieSize]
    omega
  have hset : SetAccessToken codec st T =
      { expireAccessTokenChunks st with sd :=
        { (expireAccessTokenChunks st).sd with
          accessChunkIdx := [],
          access := { (expireAccessTokenChunks st).sd.access with
            Values := setValue
              (setValue (expireAccessTokenChunks st).sd.access.Values
                "token" (.vstr (compressToken codec T)))
              "compressed" (.vbool true) } } } := by
    simp only [SetAccessToken, hle, if_pos]
  refine ⟨?_, ?_, ?_⟩
  · rw [hset]
  · rw [hset]
  · rw [getAccessToken_setAccessToken]
    have hcne : compressToken codec T ≠ [] := b64encodeBytes_ne_nil (codec.deflate T) hne
    rw [if_neg hcne]
    exact decompressToken_compressToken codec T hrt hval

/-- Witness for C2 at a concrete input: a 3-byte token (4 encoded bytes)
round-trips through inline storage with no chunks. -/
theorem setAccessToken_inline_roundtrip_witness :
    (SetAccessToken idCodec emptyState sampleSmallToken).sd.accessChunkIdx = [] ∧
    GetAccessToken idCodec (SetAccessToken idCodec emptyState sampleSmallToken)
      = sampleSmallToken :=
  ⟨(setAccessToken_inline_roundtrip idCodec sampleSmallToken emptyState
      rfl (by intro b hb; simp [sampleSmallToken, idCodec] at hb; omega)
      (by decide) (by decide)).1,
   (setAccessToken_inline_roundtrip idCodec sampleSmallToken emptyState
      rfl (by intro b hb; simp [sampleSmallToken, idCodec] at hb; omega)
      (by decide) (by decide)).2.2⟩

/-- C3: setting a token fully overwrites prior state for that slot: in a
session whose request carries a previously stored chunked token
(chunk cookies at indices 0..k-1), `SetAccessToken T2` first expires
every existing chunk partition (MaxAge = -1, values emptied), and the
result of a subsequent `GetAccessToken` depends only on T2 — it equals the
result obtained from any other prior state, so no fragment of the old
token is reachable. -/
theorem setAccessToken_overwrites (codec : GzipCodec) (st : MState) (k : Nat) (T2 : Bytes)
    (h : ChunkRun st.reg k) :
    (∀ j, j < k → ∃ s, regFind st.reg (.accessChunk j) = some s ∧
      regFind (expireAccessTokenChunks st).reg (.accessChunk j)
        = some { s with MaxAge := -1, Values := [] }) ∧
    (∀ st2 : MState, GetAccessToken codec (SetAccessToken codec st T2)
      = GetAccessToken codec (SetAccessToken codec st2 T2)) := by
  constructor
  · exact expireAccessTokenChunks_expires st k h
  · intro st2
    rw [getAccessToken_setAccessToken, getAccessToken_setAccessToken]

/-- Witness for C3 at a concrete input: the previously stored chunk cookie
at index 0 is expired by the set, and the retrieved token is the same as
from an empty prior state. -/
theorem setAccessToken_overwrites_witness :
    (∃ s, regFind chunkedState.reg (.accessChunk 0) = some s ∧
      regFind (expireAccessTokenChunks chunkedState).reg (.accessChunk 0)
        = some { s with MaxAge := -1, Values := [] }) ∧
    GetAccessToken idCodec (SetAccessToken idCodec chunkedState sampleSmallToken)
      = GetAccessToken idCodec (SetAccessToken idCodec emptyState sampleSmallToken) := by
  have h : ChunkRun chunkedState.reg 1 := by
    constructor
    · intro j hj
      have hj0 : j = 0 := by omega
      subst hj0
      exact ⟨loadedChunkSession, rfl, rfl⟩
    · intro j hj
      simp only [chunkedState, regFind]
      rw [if_neg]
      intro hcontra
      have : 0 = j := by injection hcontra
      omega
  exact ⟨(setAccessToken_overwrites idCodec chunkedState 1 sampleSmallToken h).1 0
      (by omega),
    (setAccessToken_overwrites idCodec chunkedState 1 sampleSmallToken h).2 emptyState⟩

/-- C4: `SetAuthenticated true` always assigns a fresh session identifier
— the 64-hex-character encoding of the 32 random bytes read from
`crypto/rand` — to the main partition and sets `created_at` to the current
time; `SetAuthenticated false` changes only the `authenticated` flag,
leaving the identifier and `created_at` (and all other main-partition
keys, and the other partitions) unchanged in both cases. -/
theorem setAuthenticated_spec (sd : SD) (entropy : Bytes) (now : Int)
    (hlen : entropy.length = 32) (hval : ValidBytes entropy) :
    ((SetAuthenticated sd true entropy now).main.ID
        = generateSecureRandomString entropy ∧
     (SetAuthenticated sd true entropy now).main.ID.length = 64 ∧
     (∀ ch ∈ (SetAuthenticated sd true entropy now).main.ID, IsHexByte ch) ∧
     getValue (SetAuthenticated sd true entropy now).main.Values "created_at"
        = some (.vint now) ∧
     getValue (SetAuthenticated sd true entropy now).main.Values "authenticated"
        = some (.vbool true) ∧
     (∀ key, key ≠ "created_at" → key ≠ "authenticated" →
       getValue (SetAuthenticated sd true entropy now).main.Values key
          = getValue sd.main.Values key) ∧
     (SetAuthenticated sd true entropy now).main.MaxAge = sd.main.MaxAge ∧
     (SetAuthenticated sd true entropy now).access = sd.access ∧
     (SetAuthenticated sd true entropy now).refresh = sd.refresh ∧
     (SetAuthenticated sd true entropy now).accessChunkIdx = sd.accessChunkIdx ∧
     (SetAuthenticated sd true entropy now).refreshChunkIdx = sd.refreshChunkIdx) ∧
    ((SetAuthenticated sd false entropy now).main.ID = sd.main.ID ∧
     getValue (SetAuthenticated sd false entropy now).main.Values "created_at"
        = getValue sd.main.Values "created_at" ∧
     getValue (SetAuthenticated sd false entropy now).main.Values "authenticated"
        = some (.vbool false) ∧
     (∀ key, key ≠ "authenticated" →
       getValue (SetAuthenticated sd false entropy now).main.Values key
          = getValue sd.main.Values key) ∧
     (SetAuthenticated sd false entropy now).main.MaxAge = sd.main.MaxAge ∧
     (SetAuthenticated sd false entropy now).access = sd.access ∧
     (SetAuthenticated sd false entropy now).refresh = sd.refresh) := by
  have hkey : ("created_at" : String) ≠ "authenticated" := by decide
  have ht : SetAuthenticated sd true entropy now =
      { sd with main := { sd.main with
          ID := generateSecureRandomString entropy,
          Values := setValue (setValue sd.main.Values "created_at" (.vint now))
            "authenticated" (.vbool true) } } := rfl
  have hf : SetAuthenticated sd false entropy now =
      { sd with main := { sd.main with
          Values := setValue sd.main.Values "authenticated" (.vbool false) } } := rfl
  constructor
  · rw [ht]
    refine ⟨rfl, ?_, ?_, ?_, ?_, ?_, rfl, rfl, rfl, rfl, rfl⟩
    · show (generateSecureRandomString entropy).length = 64
      unfold generateSecureRandomString
      rw [hexEncode_length, hlen]
    · show ∀ ch ∈ generateSecureRandomString entropy, IsHexByte ch
      exact hexEncode_chars entropy hval
    · show getValue (setValue (setValue sd.main.Values "created_at" (.vint now))
        "authenticated" (.vbool true)) "created_at" = some (.vint now)
      rw [getValue_setValue_ne _ _ _ _ hkey, getValue_setValue_self]
    · exact getValue_setValue_self _ _ _
    · intro key h1 h2
      show getValue (setValue (setValue sd.main.Values "created_at" (.vint now))
        "authenticated" (.vbool true)) key = getValue sd.main.Values key
      rw [getValue_setValue_ne _ _ _ _ h2, getValue_setValue_ne _ _ _ _ h1]
  · rw [hf]
    refine ⟨rfl, ?_, ?_, ?_, rfl, rfl, rfl⟩
    · exact getValue_setValue_ne _ _ _ _ hkey
    · exact getValue_setValue_self _ _ _
    · intro key h1
      exact getValue_setValue_ne _ _ _ _ h1

/-- Witness for C4 at a concrete input: the identifier written by
`SetAuthenticated true` for 32 concrete random bytes has 64 characters. -/
theorem setAuthenticated_spec_witness :
    (SetAuthenticated emptyState.sd true (List.replicate 32 171) 1000).main.ID.length = 64 :=
  (setAuthenticated_spec emptyState.sd (List.replicate 32 171) 1000
    (List.length_replicate 32 171)
    (by
      intro b hb
      simp only [List.mem_replicate] at hb
      omega)).1.2.1

/-- C5: `GetAuthenticated` returns true iff the main partition's
`authenticated` flag is true and the elapsed time since `created_at` is at
most 24 hours (86400 s); in particular, whenever the elapsed time exceeds
24 hours it returns false even when the flag is true. -/
theorem getAuthenticated_iff (sd : SD) (now : Int) :
    (GetAuthenticated sd now = true ↔
      (getBoolD sd.main.Values "authenticated" = true ∧
       ∃ t, getIntOpt sd.main.Values "created_at" = some t ∧
         now - t ≤ absoluteSessionTimeoutSecs)) ∧
    (∀ t, getIntOpt sd.main.Values "created_at" = some t →
      now - t > absoluteSessionTimeoutSecs → GetAuthenticated sd now = false) := by
  constructor
  · by_cases hauth : getBoolD sd.main.Values "authenticated" = true
    · cases hca : getIntOpt sd.main.Values "created_at" with
      | none => simp [GetAuthenticated, hauth, hca]
      | some t0 =>
          simp only [GetAuthenticated, hauth, Bool.not_true, Bool.false_eq_true,
            if_false, hca]
          constructor
          · intro h
            exact ⟨by trivial, t0, rfl, of_decide_eq_true h⟩
          · intro ⟨_, t, ht, hle⟩
            injection ht with ht
            subst ht
            exact decide_eq_true hle
    · simp only [Bool.not_eq_true] at hauth
      simp [GetAuthenticated, hauth]
  · intro t hca hgt
    by_cases hauth : getBoolD sd.main.Values "authenticated" = true
    · simp only [GetAuthenticated, hauth, Bool.not_true, Bool.false_eq_true,
        if_false, hca]
      exact decide_eq_false (by omega)
    · simp only [Bool.not_eq_true] at hauth
      simp [GetAuthenticated, hauth]

/-- A main session with the authenticated flag set and an old
`created_at`. -/
def staleAuthSession : GoSession :=
  { Values := [("authenticated", .vbool true), ("created_at", .vint 0)],
    MaxAge := 2592000, IsNew := false, ID := [] }

/-- Witness for C5 at a concrete input: flag true but 90000 s elapsed
(> 24 h) gives false. -/
theorem getAuthenticated_iff_witness :
    GetAuthenticated { emptyState.sd with main := staleAuthSession } 90000 = false :=
  (getAuthenticated_iff { emptyState.sd with main := staleAuthSession } 90000).2
    0 (by decide) (by decide)

/-- On a REUSED pooled instance (all session pointer fields populated by
a previous request), the expiry path of `GetSession` does what the spec's
Load contract intends: the session state is cleared — all partitions
emptied with MaxAge = -1, no response writer — the cleared instance goes
back to the pool, and the "session expired" error is returned.  (This is
the part of claim C6 the code gets right; see the next theorem for the
fresh-instance case it gets wrong.) -/
theorem getSession_expired_reused (prev : SD) (reg : Registry) (now t : Int)
    (hca : getIntOpt (storeGet reg .main).1.Values "created_at" = some t)
    (hexp : now - t > absoluteSessionTimeoutSecs) :
    ∃ res, GetSession (reusedPoolInstance prev) reg now = .ok res ∧
      res.result = .error "session expired" ∧
      ∃ sd, res.pooledBack = some sd ∧
        sd.main.Values = [] ∧ sd.main.MaxAge = -1 ∧
        sd.access.Values = [] ∧ sd.access.MaxAge = -1 ∧
        sd.refresh.Values = [] ∧ sd.refresh.MaxAge = -1 := by
  set csd : SD := { main := (storeGet reg .main).1, access := prev.access,
                    refresh := prev.refresh,
                    accessChunkIdx := prev.accessChunkIdx,
                    refreshChunkIdx := prev.refreshChunkIdx } with hcsd
  have hclear : clearPooled
      { reusedPoolInstance prev with mainP := some (storeGet reg .main).1 }
      (storeGet reg .main).2
    = .ok (clearNoWriter csd (storeGet reg .main).2) := by
    simp only [reusedPoolInstance, clearPooled, hcsd]
  have hget : GetSession (reusedPoolInstance prev) reg now =
      .ok { result := .error "session expired",
            pooledBack := some (clearNoWriter csd (storeGet reg .main).2).1,
            reg := (clearNoWriter csd (storeGet reg .main).2).2 } := by
    simp only [GetSession, hca, if_pos hexp, hclear]
  rw [hget]
  refine ⟨_, rfl, rfl, _, rfl, ?_, ?_, ?_, ?_, ?_, ?_⟩ <;>
    simp [clearNoWriter, clearState]

/-- A main session whose `created_at` is far in the past. -/
def expiredMainSession : GoSession :=
  { Values := [("created_at", .vint 0)], MaxAge := 2592000, IsNew := false, ID := [] }

/-- C6, the code evaluated at the failing input: on a FRESH pool instance
— `sessionPool.New` (session.go lines 152-160) leaves `accessSession` and
`refreshSession` nil — a request whose main cookie carries
`created_at = 0`, probed at `now = 90000` (elapsed > 24 h), does NOT get
its state cleared and does NOT receive the session-expired error: the
expiry check calls `Clear`, which dereferences the nil `accessSession`
(`sd.accessSession.Options.MaxAge = -1`, session.go line 355) and the
handler panics. -/
theorem getSession_expired_freshPool_panics :
    GetSession freshPoolInstance [(.main, expiredMainSession)] 90000
      = .nilPanic := rfl

/-- C7: the token-endpoint request body always contains `grant_type`,
`client_id` and `client_secret`; for grant type `refresh_token` it
additionally contains only `refresh_token` and never `code` or
`redirect_uri`; for grant type `authorization_code` with PKCE disabled for
the installation, it never contains `code_verifier` even when a non-empty
verifier was supplied to the call. -/
theorem exchangeTokens_body_spec
    (clientID clientSecret grantType codeOrToken redirectURL codeVerifier : String) :
    (formGet (exchangeTokensForm clientID clientSecret grantType codeOrToken
        redirectURL codeVerifier) "grant_type" = some grantType ∧
     formGet (exchangeTokensForm clientID clientSecret grantType codeOrToken
        redirectURL codeVerifier) "client_id" = some clientID ∧
     formGet (exchangeTokensForm clientID clientSecret grantType codeOrToken
        redirectURL codeVerifier) "client_secret" = some clientSecret) ∧
    (grantType = "refresh_token" →
      formGet (exchangeTokensForm clientID clientSecret grantType codeOrToken
        redirectURL codeVerifier) "refresh_token" = some codeOrToken ∧
      formHasKey (exchangeTokensForm clientID clientSecret grantType codeOrToken
        redirectURL codeVerifier) "code" = false ∧
      formHasKey (exchangeTokensForm clientID clientSecret grantType codeOrToken
        redirectURL codeVerifier) "redirect_uri" = false ∧
      exchangeTokensForm clientID clientSecret grantType codeOrToken
          redirectURL codeVerifier
        = [("grant_type", grantType), ("client_id", clientID),
           ("client_secret", clientSecret), ("refresh_token", codeOrToken)]) ∧
    (formHasKey (exchangeCodeForTokenForm false clientID clientSecret codeOrToken
        redirectURL codeVerifier) "code_verifier" = false) := by
  refine ⟨?_, ?_, ?_⟩
  · by_cases h1 : grantType = "authorization_code"
    · subst h1
      by_cases h2 : codeVerifier = ""
      · simp [exchangeTokensForm, formSet, formGet, h2]
      · simp [exchangeTokensForm, formSet, formGet, h2]
    · by_cases h2 : grantType = "refresh_token"
      · subst h2
        simp [exchangeTokensForm, formSet, formGet]
      · simp [exchangeTokensForm, formSet, formGet, h1, h2]
  · intro h
    subst h
    refine ⟨?_, ?_, ?_, ?_⟩ <;>
      simp [exchangeTokensForm, formSet, formGet, formHasKey]
  · simp [exchangeCodeForTokenForm, exchangeTokensForm, formSet, formGet, formHasKey]

/-- Witness for C7 at a concrete input: a refresh exchange body has no
`code` key, and an exchange with PKCE disabled and a supplied verifier has
no `code_verifier` key. -/
theorem exchangeTokens_body_spec_witness :
    formHasKey (exchangeTokensForm "cid" "sec" "refresh_token" "tok" "" "v")
      "code" = false ∧
    formHasKey (exchangeCodeForTokenForm false "cid" "sec" "c" "https://app/cb" "v")
      "code_verifier" = false :=
  ⟨((exchangeTokens_body_spec "cid" "sec" "refresh_token" "tok" "" "v").2.1 rfl).2.1,
   (exchangeTokens_body_spec "cid" "sec" "authorization_code" "c" "https://app/cb" "v").2.2⟩

/-- C8 (amended): for every token-endpoint response with a status other
than 200, the exchange returns an error carrying the status code and the
entire response body (no size limit is applied); for every 200 response
whose body does not decode as a token response, it returns a decode error;
in both cases no `TokenResponse` is returned. -/
theorem finishExchange_spec (decode : Bytes → Option TokenResponse)
    (status : Nat) (body : Bytes) :
    (status ≠ 200 → finishExchange decode status body = .statusError status body) ∧
    (status = 200 → decode body = none → finishExchange decode status body = .decodeError) ∧
    (∀ tr, status ≠ 200 ∨ decode body = none →
      finishExchange decode status body ≠ .ok tr) := by
  refine ⟨?_, ?_, ?_⟩
  · intro h
    simp [finishExchange, h]
  · intro h hdec
    simp [finishExchange, h, hdec]
  · intro tr h
    rcases h with h | h
    · simp [finishExchange, h]
    · by_cases hs : status = 200
      · simp [finishExchange, hs, h]
      · simp [finishExchange, hs]

/-- Counterexample for C8 as stated: the body carried by the status error
is not size-limited — for every candidate bound B there is a response
whose error carries a strictly larger body (the code uses a plain
`io.ReadAll` with no limiting reader). -/
theorem finishExchange_body_not_bounded :
    ¬ ∃ B : Nat, ∀ (decode : Bytes → Option TokenResponse) (status : Nat)
      (body : Bytes) (c : Nat) (b : Bytes),
      finishExchange decode status body = .statusError c b → b.length ≤ B := by
  intro ⟨B, h⟩
  have hrun : finishExchange (fun _ => none) 500 (List.replicate (B + 1) 97)
      = .statusError 500 (List.replicate (B + 1) 97) := by
    simp [finishExchange]
  have := h (fun _ => none) 500 (List.replicate (B + 1) 97) 500
    (List.replicate (B + 1) 97) hrun
  simp only [List.length_replicate] at this
  omega

/-- Witness for C8 (amended) at concrete inputs: a 500 response yields the
status error with the whole body, a 200 response with an undecodable body
yields the decode error. -/
theorem finishExchange_spec_witness :
    finishExchange (fun _ => none) 500 [97] = .statusError 500 [97] ∧
    finishExchange (fun _ => none) 200 [97] = .decodeError :=
  ⟨(finishExchange_spec (fun _ => none) 500 [97]).1 (by decide),
   (finishExchange_spec (fun _ => none) 200 [97]).2.1 rfl rfl⟩

/-- C9: decompression degrades rather than fails: for every input that is
not valid standard base64, or whose decoded bytes are not a valid gzip
stream, `decompressToken` returns the input unchanged instead of reporting
an error; consequently `GetAccessToken` never fails on an undecodable
stored payload — it returns the (degraded) decompression result. -/
theorem decompressToken_degrades (codec : GzipCodec) (s : Bytes) :
    (b64decodeBytes s = none → decompressToken codec s = s) ∧
    (∀ bs, b64decodeBytes s = some bs → codec.inflate bs = none →
      decompressToken codec s = s) ∧
    (∀ st : MState, getStringD st.sd.access.Values "token" = s → s ≠ [] →
      getBoolD st.sd.access.Values "compressed" = true →
      GetAccessToken codec st = decompressToken codec s) := by
  refine ⟨?_, ?_, ?_⟩
  · intro h
    simp [decompressToken, h]
  · intro bs h hinf
    simp [decompressToken, h, hinf]
  · intro st htok hne hflag
    simp only [GetAccessToken, htok, hflag, if_pos hne]
    simp

/-- Witness for C9 at a concrete input: the single byte `!` is not valid
base64 and is returned unchanged. -/
theorem decompressToken_degrades_witness :
    decompressToken idCodec [33] = [33] :=
  (decompressToken_degrades idCodec [33]).1 (by decide)

/-- A loaded session whose access partition stores a token inline. -/
def logoutState : MState :=
  { sd := { main := freshSession,
            access := { Values := [("token", .vstr [65])], MaxAge := 2592000,
                        IsNew := false, ID := [] },
            refresh := freshSession, accessChunkIdx := [], refreshChunkIdx := [] },
    reg := [] }

/-- C10: in the logout handler, the value passed to `BuildLogoutURL` as
its `idToken` argument (sent as the `id_token_hint` query parameter) is
the session's access token — the string `GetAccessToken` returns before
the session is cleared — for every URL builder and every session state. -/
theorem handleLogout_id_token_hint (codec : GzipCodec)
    (buildLogoutURL : String → Bytes → String → Option String)
    (endSessionURL postLogoutRedirectURI scheme host : String) (st : MState)
    (hend : endSessionURL ≠ "") (htok : GetAccessToken codec st ≠ []) :
    (handleLogout codec buildLogoutURL endSessionURL postLogoutRedirectURI
        scheme host st).1
      = match buildLogoutURL endSessionURL (GetAccessToken codec st)
          (computePostLogoutURI postLogoutRedirectURI scheme host) with
        | some u => .redirect u
        | none => .logoutError := by
  simp only [handleLogout, if_pos (And.intro hend htok)]
  cases buildLogoutURL endSessionURL (GetAccessToken codec st)
    (computePostLogoutURI postLogoutRedirectURI scheme host) <;> rfl

/-- Witness for C10 at a concrete input. -/
theorem handleLogout_id_token_hint_witness :
    (handleLogout idCodec (fun _ _ _ => some "u") "https://idp/logout" ""
      "https" "app" logoutState).1 = .redirect "u" :=
  handleLogout_id_token_hint idCodec (fun _ _ _ => some "u") "https://idp/logout" ""
    "https" "app" logoutState (by decide) (by decide)

end Traefikoidc
